import Mathlib

/-!
Formal model of the descriptor-to-Fisher-vector pipeline of `run_idt.py`
(Improved-Dense-Trajectories).  Matrices are lists of rows over `ℚ`;
the external numerical libraries (`sklearn`'s PCA and GaussianMixture,
`cv2`, `densetrack`) are modelled as abstract function parameters, since
they are not part of this repository.  Every definition below is a direct
translation of the corresponding Python function of `src/run_idt.py`.
-/

namespace IDT

/-- The attributes of a fitted `sklearn.mixture.GaussianMixture` that
`fisher_vector` reads: `weights_`, `means_`, `covariances_` (diagonal,
stored as a K x d matrix) and the `predict_proba` method, kept abstract
because its numerical body lives in sklearn, outside this repository. -/
structure GMM where
  weights : List ℚ
  means : List (List ℚ)
  covariances : List (List ℚ)
  predictProba : List (List ℚ) → List (List ℚ)

/-- The local `Q = gmm.predict_proba(xx)` of `fisher_vector`
(run_idt.py line 67), an N x K matrix of posterior responsibilities. -/
def Qmat (xx : List (List ℚ)) (gmm : GMM) : List (List ℚ) :=
  gmm.predictProba xx

/-- The number K of mixture components, read off the column count of `Q`
exactly as numpy's shape-driven broadcasting does. -/
def Kdim (xx : List (List ℚ)) (gmm : GMM) : ℕ :=
  ((Qmat xx gmm).headD []).length

/-- The descriptor dimension d, read off the column count of `xx`. -/
def ddim (xx : List (List ℚ)) : ℕ :=
  (xx.headD []).length

/-- The local `Q_sum = np.sum(Q, 0)[:, np.newaxis] / N` of `fisher_vector`
(run_idt.py line 70): entry k is the sum of column k of `Q`, divided by
`N = xx.shape[0]`.  (The `np.newaxis` only reshapes for broadcasting.) -/
def Q_sum (xx : List (List ℚ)) (gmm : GMM) : List ℚ :=
  (List.range (Kdim xx gmm)).map (fun k =>
    ((Qmat xx gmm).map (fun q => q.getD k 0)).sum / (xx.length : ℚ))

/-- The local `Q_xx = np.dot(Q.T, xx) / N` of `fisher_vector`
(run_idt.py line 71), written entrywise: entry (k, j) contracts the row
index n, pairing row n of `Q` with row n of `xx`. -/
def Q_xx (xx : List (List ℚ)) (gmm : GMM) : List (List ℚ) :=
  (List.range (Kdim xx gmm)).map (fun k => (List.range (ddim xx)).map (fun j =>
    (((Qmat xx gmm).zip xx).map (fun p => p.1.getD k 0 * p.2.getD j 0)).sum
      / (xx.length : ℚ)))

/-- The local `Q_xx_2 = np.dot(Q.T, xx ** 2) / N` of `fisher_vector`
(run_idt.py line 72): as `Q_xx` but with the entries of `xx` squared
elementwise first. -/
def Q_xx_2 (xx : List (List ℚ)) (gmm : GMM) : List (List ℚ) :=
  (List.range (Kdim xx gmm)).map (fun k => (List.range (ddim xx)).map (fun j =>
    (((Qmat xx gmm).zip xx).map (fun p => p.1.getD k 0 * p.2.getD j 0 ^ 2)).sum
      / (xx.length : ℚ)))

/-- The local `d_pi = Q_sum.squeeze() - gmm.weights_` of `fisher_vector`
(run_idt.py line 75). -/
def d_pi (xx : List (List ℚ)) (gmm : GMM) : List ℚ :=
  (List.range (Kdim xx gmm)).map (fun k =>
    (Q_sum xx gmm).getD k 0 - gmm.weights.getD k 0)

/-- The local `d_mu = Q_xx - Q_sum * gmm.means_` of `fisher_vector`
(run_idt.py line 76); `Q_sum` (K x 1) broadcasts over the d columns. -/
def d_mu (xx : List (List ℚ)) (gmm : GMM) : List (List ℚ) :=
  (List.range (Kdim xx gmm)).map (fun k => (List.range (ddim xx)).map (fun j =>
    ((Q_xx xx gmm).getD k []).getD j 0
      - (Q_sum xx gmm).getD k 0 * (gmm.means.getD k []).getD j 0))

/-- The local `d_sigma = -Q_xx_2 - Q_sum * means**2 + Q_sum * covariances
+ 2 * Q_xx * means` of `fisher_vector` (run_idt.py lines 77-81). -/
def d_sigma (xx : List (List ℚ)) (gmm : GMM) : List (List ℚ) :=
  (List.range (Kdim xx gmm)).map (fun k => (List.range (ddim xx)).map (fun j =>
    -((Q_xx_2 xx gmm).getD k []).getD j 0
      - (Q_sum xx gmm).getD k 0 * (gmm.means.getD k []).getD j 0 ^ 2
      + (Q_sum xx gmm).getD k 0 * (gmm.covariances.getD k []).getD j 0
      + 2 * ((Q_xx xx gmm).getD k []).getD j 0
          * (gmm.means.getD k []).getD j 0))

/-- Translation of `fisher_vector(xx, gmm)` (run_idt.py lines 46-84):
`return np.hstack((d_pi, d_mu.flatten(), d_sigma.flatten()))`.  The local
arrays of the Python function are the top-level definitions above. -/
def fisher_vector (xx : List (List ℚ)) (gmm : GMM) : List ℚ :=
  d_pi xx gmm ++ (d_mu xx gmm).flatten ++ (d_sigma xx gmm).flatten

/-- The specification's sufficient statistic `S0[k] = mean_n Q[n,k]`
(mean over the rows of `Q`). -/
def S0spec (Q : List (List ℚ)) (k : ℕ) : ℚ :=
  (Q.map (fun r => r.getD k 0)).sum / (Q.length : ℚ)

/-- The specification's sufficient statistic
`S1[k,j] = mean_n Q[n,k] * X[n,j]`. -/
def S1spec (Q X : List (List ℚ)) (k j : ℕ) : ℚ :=
  ((Q.zip X).map (fun p => p.1.getD k 0 * p.2.getD j 0)).sum
    / (((Q.zip X).length : ℚ))

/-- The specification's sufficient statistic
`S2[k,j] = mean_n Q[n,k] * X[n,j] ^ 2`. -/
def S2spec (Q X : List (List ℚ)) (k j : ℕ) : ℚ :=
  ((Q.zip X).map (fun p => p.1.getD k 0 * p.2.getD j 0 ^ 2)).sum
    / (((Q.zip X).length : ℚ))

/-- A concrete descriptor matrix: `n` rows of `d` zeros. -/
def xW (n d : ℕ) : List (List ℚ) :=
  List.replicate n (List.replicate d 0)

/-- A concrete mixture with `k` components over dimension `d`, whose
posterior function assigns uniform responsibilities. -/
def gmmW (k d : ℕ) : GMM where
  weights := List.replicate k ((k : ℚ))⁻¹
  means := List.replicate k (List.replicate d 0)
  covariances := List.replicate k (List.replicate d 1)
  predictProba := fun m => m.map (fun _ => List.replicate k ((k : ℚ))⁻¹)

/-- The configuration constants at the top of `run_idt.py` (lines 13-20):
the three channel flags and the mixture component count `K`.  The script
defines them as module-level constants; grouping them lets theorems also
speak about other configured values, which the specification calls the
"configuration surface". -/
structure Config where
  HOG_FISHER_VECTOR : Bool
  HOF_FISHER_VECTOR : Bool
  MBH_FISHER_VECTOR : Bool
  K : ℕ

/-- The values the script ships with: all three channels enabled and
`K = 128`. -/
def defaultConfig : Config :=
  ⟨true, true, true, 128⟩

/-- The two sklearn entry points `fisher_descriptor` calls, kept abstract
because their numerical bodies live outside this repository:
`PCA(n_components=c).fit(X).transform(X)` and
`GaussianMixture(n_components=k, covariance_type='diag').fit(X)`. -/
structure Sklearn where
  pcaFitTransform : ℕ → List (List ℚ) → List (List ℚ)
  gmmFit : ℕ → List (List ℚ) → GMM

/-- A descriptor array as handed to `fisher_descriptor`: either an
ordinary 2-D `(N, D)` array of flat per-trajectory rows, or a 3-D stack
of 2-D per-trajectory blocks (the `ndim > 2` case of lines 156-161).
An empty batch is the 2-D case with no rows (numpy shape `(0,)`). -/
inductive DescriptorArray where
  | twoD (m : List (List ℚ))
  | threeD (t : List (List (List ℚ)))

/-- The shape normalisation at the top of `fisher_descriptor` (lines
156-161): when `descriptor.ndim > 2`, every per-trajectory block is
flattened (`d.flatten()`, row-major) before the matrix is built; a 2-D
array passes through unchanged. -/
def toMatrix : DescriptorArray → List (List ℚ)
  | .twoD m => m
  | .threeD t => t.map List.flatten

/-- Lines 163-164 of `run_idt.py`:
`PCA(n_components=int(descriptor.shape[1]/2)).fit(descriptor).transform(descriptor)`.
Python's `int(D/2)` truncates toward zero, which for natural `D` is the
floor `D / 2`. -/
def reduceStep (ext : Sklearn) (descriptor : List (List ℚ)) : List (List ℚ) :=
  ext.pcaFitTransform ((descriptor.headD []).length / 2) descriptor

/-- Translation of `fisher_descriptor(descriptor)` (lines 139-166).  On an
empty batch the stacked numpy array has shape `(0,)`, so reading
`descriptor.shape[1]` raises `IndexError`, modelled as the error case;
otherwise the matrix is reduced with PCA, a diagonal mixture with `K`
components is fitted, and `fisher_vector` encodes the reduced matrix. -/
def fisher_descriptor (cfg : Config) (ext : Sklearn) (da : DescriptorArray) :
    Except String (List ℚ) :=
  match toMatrix da with
  | [] => .error "IndexError: tuple index out of range"
  | r :: rest =>
    let descriptor_pca := reduceStep ext (r :: rest)
    let gmm := ext.gmmFit cfg.K descriptor_pca
    .ok (fisher_vector descriptor_pca gmm)

/-- One improved-dense-trajectory record, restricted to the four
descriptor blocks the script reads at fixed negative offsets from the end
of the tuple: `[-5]` HOG, `[-4]` HOF, `[-3]` MBH-X, `[-2]` MBH-Y. -/
structure TrackRecord where
  hog : List ℚ
  hof : List ℚ
  mbhx : List ℚ
  mbhy : List ℚ
deriving DecidableEq

/-- Translation of `read_hog(descriptors)` (lines 87-100): stack the
`[-5]` block of every record into one array. -/
def read_hog (tracks : List TrackRecord) : DescriptorArray :=
  .twoD (tracks.map TrackRecord.hog)

/-- Translation of `read_hof(descriptors)` (lines 103-116): stack the
`[-4]` block of every record into one array. -/
def read_hof (tracks : List TrackRecord) : DescriptorArray :=
  .twoD (tracks.map TrackRecord.hof)

/-- Translation of `read_mbh(descriptors)` (lines 119-136): stack the
`[-3]` (X axis) and `[-2]` (Y axis) blocks into two separate arrays. -/
def read_mbh (tracks : List TrackRecord) : DescriptorArray × DescriptorArray :=
  (.twoD (tracks.map TrackRecord.mbhx), .twoD (tracks.map TrackRecord.mbhy))

/-- Cut a flat vector back into rows of length `b`: the inverse of the
row-major per-row flattening, used to state that the flattening of a
uniform block is lossless. -/
def unflattenRow (b : ℕ) (l : List ℚ) : List (List ℚ) :=
  if h : b = 0 ∨ l = [] then []
  else l.take b :: unflattenRow b (l.drop b)
termination_by l.length
decreasing_by
  push_neg at h
  have hpos : 0 < l.length := List.length_pos.mpr h.2
  simp only [List.length_drop]
  omega

/-- A pandas DataFrame as the script uses it: a `name` column of strings
followed by numeric columns.  A row is the video name together with its
numeric cells in column order; a cell is `none` where pandas would store
NaN for a missing key. -/
structure DataFrame where
  columns : List String
  rows : List (String × List (Option ℚ))

/-- `pd.DataFrame()`: no columns, no rows. -/
def emptyFrame : DataFrame :=
  ⟨[], []⟩

/-- Pandas `df.empty`: true when either axis has length zero. -/
def DataFrame.isEmpty (df : DataFrame) : Bool :=
  df.rows.isEmpty || df.columns.isEmpty

/-- Translation of `add_row_to_table(data_frame, name, features)` (lines
169-191).  On an empty frame the columns are created as `'name'` followed
by `str(0) .. str(len(features)-1)`; then the new row dictionary is
appended restricted to the frame's existing columns (`pd.DataFrame([...],
columns=data_frame.columns)`), so the cell of column `str(i)` is
`features[i]` when it exists and NaN otherwise. -/
def add_row_to_table (df : DataFrame) (name : String) (features : List ℚ) :
    DataFrame :=
  let df0 := if df.isEmpty then
      ({ columns := "name" :: (List.range features.length).map (fun i => toString i),
         rows := [] } : DataFrame)
    else df
  let cells := (List.range (df0.columns.length - 1)).map (fun i => features[i]?)
  ⟨df0.columns, df0.rows ++ [(name, cells)]⟩

/-- Translation of `save_as_csv(data_frame, path)` (lines 195-207): the
CSV file is written only when the frame is non-empty; the result is the
file that was written, if any. -/
def save_as_csv (df : DataFrame) (path : String) : Option (String × DataFrame) :=
  if !df.isEmpty then some (path, df) else none

/-- One component of the Python alphanumeric sort key: `convert` turns a
maximal digit run into its numeric value and any other fragment into its
lowercased text. -/
inductive KeyElem where
  | num (n : ℕ)
  | str (s : String)
deriving DecidableEq

/-- Group a character list into maximal runs of digits / non-digits,
rightmost-run-last; adjacent runs alternate between the two classes. -/
def runsAux : List Char → List (Bool × List Char)
  | [] => []
  | c :: rest =>
    match runsAux rest with
    | [] => [(c.isDigit, [c])]
    | (b, run) :: more =>
      if c.isDigit = b then (b, c :: run) :: more
      else (c.isDigit, [c]) :: (b, run) :: more

/-- `int(...)` on a digit run (most significant digit first). -/
def natOfDigits (run : List Char) : ℕ :=
  run.foldl (fun a c => 10 * a + (c.toNat - 48)) 0

/-- `convert` applied to each run: digit runs become numbers, text runs
become lowercased strings. -/
def keyOfRuns : List (Bool × List Char) → List KeyElem
  | [] => []
  | (true, run) :: more => KeyElem.num (natOfDigits run) :: keyOfRuns more
  | (false, run) :: more =>
    KeyElem.str (String.mk (run.map Char.toLower)) :: keyOfRuns more

/-- Model of `alphanum_key`: `re.split('([0-9]+)', key)` keeps the
captured digit runs and produces empty text fragments before a leading
digit run and after a trailing one; each fragment is then `convert`ed. -/
def alphanum_key (s : String) : List KeyElem :=
  match runsAux s.data with
  | [] => [KeyElem.str ""]
  | r0 :: rs =>
    let base := keyOfRuns (r0 :: rs)
    let base := if r0.1 then KeyElem.str "" :: base else base
    if ((r0 :: rs).getLastD (false, [])).1 then base ++ [KeyElem.str ""]
    else base

/-- Python's strict `<` on strings: lexicographic comparison of the code
points. -/
def strLt : List Char → List Char → Bool
  | [], [] => false
  | [], _ :: _ => true
  | _ :: _, [] => false
  | c :: cs, d :: ds =>
    if c.toNat < d.toNat then true
    else if d.toNat < c.toNat then false
    else strLt cs ds

/-- Strict comparison of key components, as Python compares them: numbers
by value, strings lexicographically by code point.  The cross-constructor
cases never arise between keys compared at the same position (the
fragments of `alphanum_key` alternate, so aligned positions always hold
the same constructor; Python would raise `TypeError` there) and are fixed
arbitrarily. -/
def elemLT : KeyElem → KeyElem → Bool
  | .num a, .num b => a < b
  | .str a, .str b => strLt a.data b.data
  | .num _, .str _ => true
  | .str _, .num _ => false

/-- Python's lexicographic comparison of key lists (`list.__lt__` closed
into a total `≤`): first differing component decides, a prefix sorts
before its extensions. -/
def keyLe : List KeyElem → List KeyElem → Bool
  | [], _ => true
  | _ :: _, [] => false
  | x :: xs, y :: ys =>
    if elemLT x y then true else if elemLT y x then false else keyLe xs ys

/-- Stable insertion of a string into a key-sorted list: inserted before
the first element it is `≤`-related to, as Python's stable sort orders
equal keys by original position. -/
def orderedInsert (x : String) : List String → List String
  | [] => [x]
  | y :: ys =>
    if keyLe (alphanum_key x) (alphanum_key y) then x :: y :: ys
    else y :: orderedInsert x ys

/-- Translation of `sorted_alphanumeric(data)` (lines 209-217): Python's
stable `sorted(data, key=alphanum_key)` realised as a stable insertion
sort by the same key. -/
def sorted_alphanumeric (data : List String) : List String :=
  data.foldr orderedInsert []

/-- Model of `os.path.splitext(os.path.split(file)[1])[0]` on a bare file
name (entries of `os.listdir` contain no directory separator, so the
basename is the name itself): everything before the last dot, except that
a name whose characters before its last dot are all dots is not split. -/
def splitext_root (s : String) : String :=
  match s.data.reverse.dropWhile (fun c => c ≠ '.') with
  | [] => s
  | _ :: rest => if rest.all (fun c => c = '.') then s else String.mk rest.reverse

/-- The result of one `main()` run: whether the no-input message was
printed, the CSV files written (path and frame), the raw-trajectory
arrays saved on the bypass path, and the uncaught Python exception, if
any, that aborted the run. -/
structure RunOutcome where
  printedNoInput : Bool
  savedCsv : List (String × DataFrame)
  savedNpy : List String
  error : Option String

/-- The MBH section of the corpus loop (lines 249-254): run the full
pipeline independently on the X and Y stacks and concatenate the two
Fisher vectors, X part first. -/
def mbh_fisher (cfg : Config) (ext : Sklearn) (tracks : List TrackRecord) :
    Except String (List ℚ) := do
  let fvx ← fisher_descriptor cfg ext (read_mbh tracks).1
  let fvy ← fisher_descriptor cfg ext (read_mbh tracks).2
  pure (fvx ++ fvy)

/-- The body of the corpus loop of `main()` (lines 226-257) for one file:
obtain the trajectory records (`read_video` + `densetrack.densetrack`,
both external, abstracted into `tracksOf`), derive the video name, and
either save the raw records (no channel enabled) or run every enabled
channel and append its Fisher vector to the channel's frame.  `main` has
no exception handler, so an error anywhere is propagated. -/
def processVideo (cfg : Config) (ext : Sklearn)
    (tracksOf : String → List TrackRecord)
    (dfs : DataFrame × DataFrame × DataFrame × List String) (file : String) :
    Except String (DataFrame × DataFrame × DataFrame × List String) := do
  let tracks := tracksOf file
  let name := splitext_root file
  if ¬ (cfg.HOG_FISHER_VECTOR || cfg.HOF_FISHER_VECTOR
        || cfg.MBH_FISHER_VECTOR) then
    return (dfs.1, dfs.2.1, dfs.2.2.1, dfs.2.2.2 ++ [name ++ "-trajectory"])
  else
    let hog_df ← (if cfg.HOG_FISHER_VECTOR then do
        let fv ← fisher_descriptor cfg ext (read_hog tracks)
        pure (add_row_to_table dfs.1 name fv)
      else pure dfs.1)
    let hof_df ← (if cfg.HOF_FISHER_VECTOR then do
        let fv ← fisher_descriptor cfg ext (read_hof tracks)
        pure (add_row_to_table dfs.2.1 name fv)
      else pure dfs.2.1)
    let mbh_df ← (if cfg.MBH_FISHER_VECTOR then do
        let fv ← mbh_fisher cfg ext tracks
        pure (add_row_to_table dfs.2.2.1 name fv)
      else pure dfs.2.2.1)
    return (hog_df, hof_df, mbh_df, dfs.2.2.2)

/-- Translation of `main()` (lines 219-269).  An empty listing prints the
guidance message, but the save block at the end of `main` still executes
and reads `hog_df`, which was only ever assigned inside the else branch:
with any channel enabled this raises `UnboundLocalError`.  Otherwise the
files are processed in alphanumeric order; an exception in any video or
channel aborts the loop (there is no handler), skipping the save block;
on success each enabled channel's frame is saved, which writes a CSV only
for non-empty frames. -/
def main (cfg : Config) (ext : Sklearn) (files : List String)
    (tracksOf : String → List TrackRecord) : RunOutcome :=
  if files.isEmpty then
    if cfg.HOG_FISHER_VECTOR || cfg.HOF_FISHER_VECTOR
        || cfg.MBH_FISHER_VECTOR then
      ⟨true, [], [], some "UnboundLocalError: hog_df referenced before assignment"⟩
    else ⟨true, [], [], none⟩
  else
    match (sorted_alphanumeric files).foldlM (processVideo cfg ext tracksOf)
        (emptyFrame, emptyFrame, emptyFrame, []) with
    | .error e => ⟨false, [], [], some e⟩
    | .ok (hog_df, hof_df, mbh_df, npy) =>
      ⟨false,
        (if cfg.HOG_FISHER_VECTOR then
            (save_as_csv hog_df "features/hog_features.csv").toList else [])
        ++ (if cfg.HOF_FISHER_VECTOR then
            (save_as_csv hof_df "features/hof_features.csv").toList else [])
        ++ (if cfg.MBH_FISHER_VECTOR then
            (save_as_csv mbh_df "features/mbh_features.csv").toList else []),
        npy, none⟩

/-- The value `fisher_descriptor` returns on a non-empty matrix: encode
the PCA-reduced matrix against the mixture fitted on it. -/
def fisher_descriptor_val (cfg : Config) (ext : Sklearn)
    (m : List (List ℚ)) : List ℚ :=
  fisher_vector (reduceStep ext m) (ext.gmmFit cfg.K (reduceStep ext m))

/-- A concrete external-library instance for evaluations: the PCA
projection returns rows of `c` zeros and the mixture fit returns the
uniform mixture over the reduced dimension. -/
def extW : Sklearn where
  pcaFitTransform := fun c m => m.map (fun _ => List.replicate c 0)
  gmmFit := fun k X => gmmW k ((X.headD []).length)

/-- A concrete trajectory record whose four blocks all have length `d`. -/
def recW (d : ℕ) : TrackRecord :=
  ⟨List.replicate d 1, List.replicate d 1, List.replicate d 1,
    List.replicate d 1⟩

/-- A concrete corpus: video `a1` delivers an empty record batch, every
other video delivers one valid record. -/
def trFn3 : String → List TrackRecord :=
  fun f => if f = "a1.avi" then [] else [recW 4]

/-- Reading a `List.range`-built list at a valid index recovers the
generating function. -/
lemma getD_range_map {α : Type} (d : α) (f : ℕ → α) (n k : ℕ) (hk : k < n) :
    (((List.range n).map f).getD k d) = f k := by
  rw [List.getD_eq_getElem _ _ (by simpa using hk)]
  simp

/-- Indexing a flattened uniform-row-length matrix at `k * b + j`
recovers entry `(k, j)` of the matrix. -/
lemma flatten_getD_uniform {α : Type} (d : α) (l : List (List α)) (b k j : ℕ)
    (hrow : ∀ r ∈ l, r.length = b) (hj : j < b) :
    l.flatten.getD (k * b + j) d = (l.getD k []).getD j d := by
  induction l generalizing k with
  | nil => simp
  | cons r t ih =>
    have hr : r.length = b := hrow r (by simp)
    cases k with
    | zero =>
      simp only [List.flatten_cons, Nat.zero_mul, Nat.zero_add]
      rw [List.getD_append _ _ _ _ (by omega)]
      simp
    | succ m =>
      simp only [List.flatten_cons]
      rw [show (m + 1) * b + j = r.length + (m * b + j) by rw [hr]; ring]
      rw [List.getD_append_right _ _ _ _ (Nat.le_add_right _ _)]
      rw [Nat.add_sub_cancel_left]
      rw [ih m (fun r' hr' => hrow r' (List.mem_cons_of_mem _ hr'))]
      simp

/-- The flattening of a uniform-row-length matrix has `rows * b`
elements. -/
lemma flatten_length_uniform {α : Type} (l : List (List α)) (b : ℕ)
    (hrow : ∀ r ∈ l, r.length = b) :
    l.flatten.length = l.length * b := by
  induction l with
  | nil => simp
  | cons r s ih =>
    have hr : r.length = b := hrow r (List.mem_cons_self r s)
    simp only [List.flatten_cons, List.length_append, List.length_cons, hr,
      ih (fun r' h' => hrow r' (List.mem_cons_of_mem _ h'))]
    ring

/-- The length of the Fisher vector is determined by the column counts of
`Q = predict_proba xx` and of `xx`: it is `K + 2 * K * d`. -/
lemma fisher_vector_length_core (xx : List (List ℚ)) (gmm : GMM) :
    (fisher_vector xx gmm).length = Kdim xx gmm + 2 * (Kdim xx gmm * ddim xx) := by
  simp [fisher_vector, d_pi, d_mu, d_sigma, List.length_flatten, Function.comp_def]
  ring

lemma length_d_pi (xx : List (List ℚ)) (gmm : GMM) :
    (d_pi xx gmm).length = Kdim xx gmm := by
  simp [d_pi]

lemma d_mu_rows (xx : List (List ℚ)) (gmm : GMM) :
    ∀ r ∈ d_mu xx gmm, r.length = ddim xx := by
  intro r hr
  simp only [d_mu, List.mem_map] at hr
  obtain ⟨a, _, rfl⟩ := hr
  simp

lemma d_sigma_rows (xx : List (List ℚ)) (gmm : GMM) :
    ∀ r ∈ d_sigma xx gmm, r.length = ddim xx := by
  intro r hr
  simp only [d_sigma, List.mem_map] at hr
  obtain ⟨a, _, rfl⟩ := hr
  simp

lemma length_flatten_d_mu (xx : List (List ℚ)) (gmm : GMM) :
    (d_mu xx gmm).flatten.length = Kdim xx gmm * ddim xx := by
  simp [d_mu, List.length_flatten, Function.comp_def]

lemma mul_index_lt {k j Kc dc : ℕ} (hk : k < Kc) (hj : j < dc) :
    k * dc + j < Kc * dc := by
  calc k * dc + j < k * dc + dc := by omega
    _ = (k + 1) * dc := by ring
    _ ≤ Kc * dc := Nat.mul_le_mul_right dc hk

/-- Entry `k` of the Fisher vector, for `k` below `K`: the weight
gradient `d_pi[k]`. -/
lemma fisher_vector_getD_pi (xx : List (List ℚ)) (gmm : GMM) (k : ℕ)
    (hk : k < Kdim xx gmm) :
    (fisher_vector xx gmm).getD k 0
      = (Q_sum xx gmm).getD k 0 - gmm.weights.getD k 0 := by
  unfold fisher_vector
  rw [List.getD_append _ _ _ _ (by rw [List.length_append, length_d_pi]; omega)]
  rw [List.getD_append _ _ _ _ (by rw [length_d_pi]; omega)]
  exact getD_range_map 0 _ _ k hk

/-- Entry `K + k * d + j` of the Fisher vector: the mean gradient
`d_mu[k, j]`. -/
lemma fisher_vector_getD_mu (xx : List (List ℚ)) (gmm : GMM) (k j : ℕ)
    (hk : k < Kdim xx gmm) (hj : j < ddim xx) :
    (fisher_vector xx gmm).getD (Kdim xx gmm + (k * ddim xx + j)) 0
      = ((Q_xx xx gmm).getD k []).getD j 0
        - (Q_sum xx gmm).getD k 0 * (gmm.means.getD k []).getD j 0 := by
  unfold fisher_vector
  have hidx : k * ddim xx + j < Kdim xx gmm * ddim xx := mul_index_lt hk hj
  rw [List.getD_append _ _ _ _
    (by rw [List.length_append, length_d_pi, length_flatten_d_mu]; omega)]
  rw [List.getD_append_right _ _ _ _ (by rw [length_d_pi]; omega)]
  rw [length_d_pi, Nat.add_sub_cancel_left]
  rw [flatten_getD_uniform _ _ _ _ _ (d_mu_rows xx gmm) hj]
  rw [show (d_mu xx gmm).getD k [] = (List.range (ddim xx)).map (fun j =>
      ((Q_xx xx gmm).getD k []).getD j 0
        - (Q_sum xx gmm).getD k 0 * (gmm.means.getD k []).getD j 0) from
    getD_range_map [] _ _ k hk]
  exact getD_range_map 0 _ _ j hj

/-- Entry `K + K * d + k * d + j` of the Fisher vector: the variance
gradient `d_sigma[k, j]`. -/
lemma fisher_vector_getD_sigma (xx : List (List ℚ)) (gmm : GMM) (k j : ℕ)
    (hk : k < Kdim xx gmm) (hj : j < ddim xx) :
    (fisher_vector xx gmm).getD
        (Kdim xx gmm + Kdim xx gmm * ddim xx + (k * ddim xx + j)) 0
      = -((Q_xx_2 xx gmm).getD k []).getD j 0
        - (Q_sum xx gmm).getD k 0 * (gmm.means.getD k []).getD j 0 ^ 2
        + (Q_sum xx gmm).getD k 0 * (gmm.covariances.getD k []).getD j 0
        + 2 * ((Q_xx xx gmm).getD k []).getD j 0
            * (gmm.means.getD k []).getD j 0 := by
  unfold fisher_vector
  rw [List.getD_append_right _ _ _ _
    (by rw [List.length_append, length_d_pi, length_flatten_d_mu]; omega)]
  rw [List.length_append, length_d_pi, length_flatten_d_mu,
    Nat.add_sub_cancel_left]
  rw [flatten_getD_uniform _ _ _ _ _ (d_sigma_rows xx gmm) hj]
  rw [show (d_sigma xx gmm).getD k [] = (List.range (ddim xx)).map (fun j =>
      -((Q_xx_2 xx gmm).getD k []).getD j 0
        - (Q_sum xx gmm).getD k 0 * (gmm.means.getD k []).getD j 0 ^ 2
        + (Q_sum xx gmm).getD k 0 * (gmm.covariances.getD k []).getD j 0
        + 2 * ((Q_xx xx gmm).getD k []).getD j 0
            * (gmm.means.getD k []).getD j 0) from
    getD_range_map [] _ _ k hk]
  exact getD_range_map 0 _ _ j hj

/-- C1: for every descriptor matrix `xx` with `N > 0` rows and `dc`
columns, and every fitted mixture whose posterior matrix `Q` has one row
per descriptor row with `Kc` entries and whose weights have length `Kc`,
the Fisher encoder output - the concatenation of `d_pi` (length `Kc`),
flattened `d_mu` (length `Kc * dc`) and flattened `d_sigma`
(length `Kc * dc`), in that fixed order - has length exactly
`Kc + 2 * Kc * dc`; for `dc = 48` and `Kc = 4` this is 388. -/
theorem fisher_vector_output_length
    (xx : List (List ℚ)) (gmm : GMM) (N Kc dc : ℕ)
    (hN : xx.length = N) (hNpos : 0 < N)
    (hrows : ∀ r ∈ xx, r.length = dc)
    (hQlen : (gmm.predictProba xx).length = N)
    (hQrows : ∀ r ∈ gmm.predictProba xx, r.length = Kc)
    (hw : gmm.weights.length = Kc) :
    (fisher_vector xx gmm).length = Kc + 2 * (Kc * dc) := by
  have hxne : xx ≠ [] := by
    intro h; rw [h] at hN; simp at hN; omega
  have hQne : gmm.predictProba xx ≠ [] := by
    intro h; rw [h] at hQlen; simp at hQlen; omega
  obtain ⟨q, Qt, hQ⟩ := List.exists_cons_of_ne_nil hQne
  obtain ⟨x0, xt, hx⟩ := List.exists_cons_of_ne_nil hxne
  have h1 : Kdim xx gmm = Kc := by
    unfold Kdim Qmat
    rw [hQ]
    exact hQrows q (by rw [hQ]; exact List.mem_cons_self q Qt)
  have h2 : ddim xx = dc := by
    unfold ddim
    rw [hx]
    exact hrows x0 (by rw [hx]; exact List.mem_cons_self x0 xt)
  rw [fisher_vector_length_core, h1, h2]

/-- Witness for C1 at `N = 1`, `d = 48`, `K = 4`: the output length is
`4 + 2 * 4 * 48 = 388`. -/
theorem fisher_vector_output_length_witness :
    (fisher_vector (xW 1 48) (gmmW 4 48)).length = 388 := by
  have h := fisher_vector_output_length (xW 1 48) (gmmW 4 48) 1 4 48
    (by simp [xW]) (by omega)
    (by intro r hr; simp [xW] at hr; simp [hr])
    (by simp [gmmW, xW])
    (by intro r hr; simp [gmmW, xW] at hr; simp [hr])
    (by simp [gmmW])
  omega

/-- C2: the entries of the Fisher vector are the gradient formulas of the
specification, expressed with the mean-normalized sufficient statistics
`S0`, `S1`, `S2` of the posterior matrix `Q = predict_proba xx`: entry `k`
is `S0[k] - pi[k]`, entry `K + k*d + j` is `S1[k,j] - S0[k]*mu[k,j]`, and
entry `K + K*d + k*d + j` is
`-S2[k,j] - S0[k]*mu[k,j]^2 + S0[k]*sigma2[k,j] + 2*S1[k,j]*mu[k,j]`. -/
theorem fisher_vector_gradient_formulas
    (xx : List (List ℚ)) (gmm : GMM) (k j : ℕ)
    (hNpos : 0 < xx.length)
    (hQlen : (gmm.predictProba xx).length = xx.length)
    (hk : k < Kdim xx gmm) (hj : j < ddim xx) :
    ((fisher_vector xx gmm).getD k 0
        = S0spec (Qmat xx gmm) k - gmm.weights.getD k 0)
    ∧ ((fisher_vector xx gmm).getD (Kdim xx gmm + (k * ddim xx + j)) 0
        = S1spec (Qmat xx gmm) xx k j
          - S0spec (Qmat xx gmm) k * (gmm.means.getD k []).getD j 0)
    ∧ ((fisher_vector xx gmm).getD
          (Kdim xx gmm + Kdim xx gmm * ddim xx + (k * ddim xx + j)) 0
        = -S2spec (Qmat xx gmm) xx k j
          - S0spec (Qmat xx gmm) k * (gmm.means.getD k []).getD j 0 ^ 2
          + S0spec (Qmat xx gmm) k * (gmm.covariances.getD k []).getD j 0
          + 2 * S1spec (Qmat xx gmm) xx k j
              * (gmm.means.getD k []).getD j 0) := by
  have hQm : (Qmat xx gmm).length = xx.length := hQlen
  have hzip : ((Qmat xx gmm).zip xx).length = xx.length := by
    rw [List.length_zip, hQm, Nat.min_self]
  have hS0 : (Q_sum xx gmm).getD k 0 = S0spec (Qmat xx gmm) k := by
    rw [Q_sum, getD_range_map 0 _ _ k hk, S0spec, hQm]
  have hS1 : ((Q_xx xx gmm).getD k []).getD j 0
      = S1spec (Qmat xx gmm) xx k j := by
    rw [Q_xx, getD_range_map [] _ _ k hk, getD_range_map 0 _ _ j hj,
      S1spec, hzip]
  have hS2 : ((Q_xx_2 xx gmm).getD k []).getD j 0
      = S2spec (Qmat xx gmm) xx k j := by
    rw [Q_xx_2, getD_range_map [] _ _ k hk, getD_range_map 0 _ _ j hj,
      S2spec, hzip]
  refine ⟨?_, ?_, ?_⟩
  · rw [fisher_vector_getD_pi xx gmm k hk, hS0]
  · rw [fisher_vector_getD_mu xx gmm k j hk hj, hS0, hS1]
  · rw [fisher_vector_getD_sigma xx gmm k j hk hj, hS0, hS1, hS2]

/-- Witness for C2 at a one-row, one-column, one-component instance with
nonzero data: all three gradient formulas evaluate as stated. -/
theorem fisher_vector_gradient_formulas_witness :
    ((fisher_vector [[(1 : ℚ)]] (gmmW 1 1)).getD 0 0
        = S0spec (Qmat [[(1 : ℚ)]] (gmmW 1 1)) 0
          - (gmmW 1 1).weights.getD 0 0)
    ∧ ((fisher_vector [[(1 : ℚ)]] (gmmW 1 1)).getD
          (Kdim [[(1 : ℚ)]] (gmmW 1 1) + (0 * ddim [[(1 : ℚ)]] + 0)) 0
        = S1spec (Qmat [[(1 : ℚ)]] (gmmW 1 1)) [[(1 : ℚ)]] 0 0
          - S0spec (Qmat [[(1 : ℚ)]] (gmmW 1 1)) 0
            * ((gmmW 1 1).means.getD 0 []).getD 0 0)
    ∧ ((fisher_vector [[(1 : ℚ)]] (gmmW 1 1)).getD
          (Kdim [[(1 : ℚ)]] (gmmW 1 1)
            + Kdim [[(1 : ℚ)]] (gmmW 1 1) * ddim [[(1 : ℚ)]]
            + (0 * ddim [[(1 : ℚ)]] + 0)) 0
        = -S2spec (Qmat [[(1 : ℚ)]] (gmmW 1 1)) [[(1 : ℚ)]] 0 0
          - S0spec (Qmat [[(1 : ℚ)]] (gmmW 1 1)) 0
            * ((gmmW 1 1).means.getD 0 []).getD 0 0 ^ 2
          + S0spec (Qmat [[(1 : ℚ)]] (gmmW 1 1)) 0
            * ((gmmW 1 1).covariances.getD 0 []).getD 0 0
          + 2 * S1spec (Qmat [[(1 : ℚ)]] (gmmW 1 1)) [[(1 : ℚ)]] 0 0
              * ((gmmW 1 1).means.getD 0 []).getD 0 0) :=
  fisher_vector_gradient_formulas [[(1 : ℚ)]] (gmmW 1 1) 0 0
    (by decide) (by decide) (by decide) (by decide)

/-- Row-major flattening of a uniform block is undone by `unflattenRow`. -/
lemma unflattenRow_flatten (m : List (List ℚ)) (b : ℕ) (hb : 0 < b)
    (hrow : ∀ r ∈ m, r.length = b) :
    unflattenRow b m.flatten = m := by
  induction m with
  | nil =>
    rw [unflattenRow]
    simp
  | cons r t ih =>
    have hr : r.length = b := hrow r (List.mem_cons_self r t)
    have hrne : r ≠ [] := by
      intro h
      rw [h] at hr
      simp at hr
      omega
    rw [unflattenRow]
    rw [dif_neg (by
      push_neg
      refine ⟨by omega, ?_⟩
      simp only [List.flatten_cons]
      intro hcontr
      exact hrne (List.append_eq_nil.mp hcontr).1)]
    simp only [List.flatten_cons]
    rw [← hr, List.take_left, List.drop_left, hr]
    rw [ih (fun r' hr' => hrow r' (List.mem_cons_of_mem _ hr'))]

lemma fisher_descriptor_ok (cfg : Config) (ext : Sklearn)
    (da : DescriptorArray) (h : toMatrix da ≠ []) :
    fisher_descriptor cfg ext da
      = .ok (fisher_descriptor_val cfg ext (toMatrix da)) := by
  obtain ⟨r, rest, hm⟩ := List.exists_cons_of_ne_nil h
  unfold fisher_descriptor fisher_descriptor_val
  rw [hm]

lemma fisher_descriptor_empty (cfg : Config) (ext : Sklearn)
    (da : DescriptorArray) (h : toMatrix da = []) :
    fisher_descriptor cfg ext da
      = .error "IndexError: tuple index out of range" := by
  unfold fisher_descriptor
  rw [h]

/-- A video with an empty record batch makes `processVideo` fail as soon
as any channel is enabled: the stacked descriptor array is empty and
`fisher_descriptor` raises. -/
lemma processVideo_empty_tracks (cfg : Config) (ext : Sklearn)
    (tracksOf : String → List TrackRecord) (dfs) (f : String)
    (hflag : (cfg.HOG_FISHER_VECTOR || cfg.HOF_FISHER_VECTOR
        || cfg.MBH_FISHER_VECTOR) = true)
    (hf : tracksOf f = []) :
    processVideo cfg ext tracksOf dfs f
      = .error "IndexError: tuple index out of range" := by
  unfold processVideo mbh_fisher
  rw [hf]
  cases hHOG : cfg.HOG_FISHER_VECTOR <;>
    cases hHOF : cfg.HOF_FISHER_VECTOR <;>
      cases hMBH : cfg.MBH_FISHER_VECTOR <;>
        simp_all [read_hog, read_hof, read_mbh, fisher_descriptor_empty,
          toMatrix, Except.bind] <;> rfl

/-- An erroring element anywhere in the list makes the unhandled
`foldlM` over `processVideo` error. -/
lemma foldlM_error_of_empty_mem (cfg : Config) (ext : Sklearn)
    (tracksOf : String → List TrackRecord) (l : List String)
    (hflag : (cfg.HOG_FISHER_VECTOR || cfg.HOF_FISHER_VECTOR
        || cfg.MBH_FISHER_VECTOR) = true)
    (f : String) (hmem : f ∈ l) (hf : tracksOf f = []) :
    ∀ dfs, ∃ e,
      l.foldlM (processVideo cfg ext tracksOf) dfs = .error e := by
  induction l with
  | nil => simp at hmem
  | cons a t ih =>
    intro dfs
    rcases List.mem_cons.mp hmem with rfl | hmem'
    · refine ⟨"IndexError: tuple index out of range", ?_⟩
      rw [List.foldlM_cons,
        processVideo_empty_tracks cfg ext tracksOf dfs f hflag hf]
      rfl
    · cases hpa : processVideo cfg ext tracksOf dfs a with
      | error e =>
        exact ⟨e, by rw [List.foldlM_cons, hpa]; rfl⟩
      | ok dfs' =>
        obtain ⟨e, he⟩ := ih hmem' dfs'
        exact ⟨e, by rw [List.foldlM_cons, hpa]; exact he⟩

lemma mem_orderedInsert (x a : String) (l : List String) :
    a ∈ orderedInsert x l ↔ a = x ∨ a ∈ l := by
  induction l with
  | nil => simp [orderedInsert]
  | cons y ys ih =>
    by_cases h : keyLe (alphanum_key x) (alphanum_key y) = true
    · simp [orderedInsert, h]
    · simp only [orderedInsert, if_neg h, List.mem_cons, ih]
      tauto

lemma perm_orderedInsert (x : String) (l : List String) :
    (orderedInsert x l).Perm (x :: l) := by
  induction l with
  | nil => exact List.Perm.refl _
  | cons y ys ih =>
    by_cases h : keyLe (alphanum_key x) (alphanum_key y) = true
    · rw [orderedInsert, if_pos h]
    · rw [orderedInsert, if_neg h]
      exact (ih.cons y).trans (List.Perm.swap x y ys)

lemma sorted_alphanumeric_perm (l : List String) :
    (sorted_alphanumeric l).Perm l := by
  unfold sorted_alphanumeric
  induction l with
  | nil => exact List.Perm.refl _
  | cons y ys ih =>
    exact (perm_orderedInsert y (ys.foldr orderedInsert [])).trans (ih.cons y)

lemma mem_sorted_alphanumeric (a : String) (l : List String) :
    a ∈ sorted_alphanumeric l ↔ a ∈ l :=
  (sorted_alphanumeric_perm l).mem_iff

/-- Counterexample for C3: with videos `a2.avi` (valid) and `a1.avi`
(empty descriptor batch), the run aborts with the uncaught IndexError and
writes no table at all - the valid video `a2`, which follows `a1` in
processing order, is never reflected anywhere, so the corpus loop did not
proceed to the next video. -/
theorem empty_batch_aborts_run_cex :
    (main defaultConfig extW ["a2.avi", "a1.avi"] trFn3).error
        = some "IndexError: tuple index out of range"
      ∧ (main defaultConfig extW ["a2.avi", "a1.avi"] trFn3).savedCsv = [] := by
  constructor <;> rfl

/-- C3 as amended: when some listed video has an empty record batch and at
least one channel is enabled, no row is appended anywhere, but not because
the failure is isolated: the uncaught exception aborts the whole run, and
no CSV is written for any channel. -/
theorem empty_batch_aborts_run
    (cfg : Config) (ext : Sklearn) (files : List String)
    (tracksOf : String → List TrackRecord)
    (hflag : (cfg.HOG_FISHER_VECTOR || cfg.HOF_FISHER_VECTOR
        || cfg.MBH_FISHER_VECTOR) = true)
    (f : String) (hmem : f ∈ files) (hf : tracksOf f = []) :
    (main cfg ext files tracksOf).error.isSome = true
      ∧ (main cfg ext files tracksOf).savedCsv = [] := by
  have hne : files.isEmpty = false := by
    cases files with
    | nil => simp at hmem
    | cons a t => rfl
  obtain ⟨e, he⟩ := foldlM_error_of_empty_mem cfg ext tracksOf
    (sorted_alphanumeric files) hflag f
    ((mem_sorted_alphanumeric f files).mpr hmem) hf
    (emptyFrame, emptyFrame, emptyFrame, [])
  unfold main
  rw [hne]
  simp [he]

/-- Witness for the amended C3 at the concrete two-video corpus. -/
theorem empty_batch_aborts_run_witness :
    (main defaultConfig extW ["a2.avi", "a1.avi"] trFn3).error.isSome = true
      ∧ (main defaultConfig extW ["a2.avi", "a1.avi"] trFn3).savedCsv = [] :=
  empty_batch_aborts_run defaultConfig extW ["a2.avi", "a1.avi"] trFn3
    (by decide) "a1.avi" (by decide) (by decide)

/-- C5 is a code bug: with an empty input directory the script does print
the guidance message, but execution then falls through to the save block,
which reads the never-assigned `hog_df` and raises `UnboundLocalError` -
a stack trace reaches the user after the message. -/
theorem empty_directory_crash :
    (main defaultConfig extW [] (fun _ => [])).printedNoInput = true
      ∧ (main defaultConfig extW [] (fun _ => [])).error
          = some "UnboundLocalError: hog_df referenced before assignment" := by
  constructor <;> rfl

/-- C6: on a matrix with `N` rows and an even column count `D`, the
reduction step requests exactly rank `D / 2` from the PCA (Python's
`int(D/2)`), so, under the external PCA's shape contract at this call, the
reduced matrix has the same `N` rows and exactly `D / 2` columns, with
`D / 2` the exact half of `D`.  (That the retained directions are the
`D / 2` of greatest variance is the semantics of the external
eigen-decomposition inside sklearn's `PCA`, which is abstract here.) -/
theorem reducer_halves_dimension
    (ext : Sklearn) (m : List (List ℚ)) (N D : ℕ)
    (hN : m.length = N)
    (h0 : (m.headD []).length = D)
    (hD : D % 2 = 0)
    (hlen : (ext.pcaFitTransform (D / 2) m).length = m.length)
    (hcols : ∀ r ∈ ext.pcaFitTransform (D / 2) m, r.length = D / 2) :
    reduceStep ext m = ext.pcaFitTransform (D / 2) m
      ∧ (reduceStep ext m).length = N
      ∧ (∀ r ∈ reduceStep ext m, r.length = D / 2)
      ∧ D / 2 * 2 = D := by
  have he : reduceStep ext m = ext.pcaFitTransform (D / 2) m := by
    rw [reduceStep, h0]
  refine ⟨he, ?_, ?_, by omega⟩
  · rw [he, hlen, hN]
  · rw [he]; exact hcols

/-- Witness for C6 on a concrete 2 x 4 matrix. -/
theorem reducer_halves_dimension_witness :
    reduceStep extW [[1, 2, 3, 4], [5, 6, 7, 8]]
        = extW.pcaFitTransform 2 [[1, 2, 3, 4], [5, 6, 7, 8]]
      ∧ (reduceStep extW [[1, 2, 3, 4], [5, 6, 7, 8]]).length = 2
      ∧ (∀ r ∈ reduceStep extW [[1, 2, 3, 4], [5, 6, 7, 8]], r.length = 4 / 2)
      ∧ 4 / 2 * 2 = 4 :=
  reducer_halves_dimension extW [[1, 2, 3, 4], [5, 6, 7, 8]] 2 4
    (by decide) (by decide) (by decide) (by decide) (by decide)

/-- C7: for a non-empty batch whose MBH blocks have 96 columns, the MBH
section runs `fisher_descriptor` independently on the X and Y stacks
(each reduced to 96 / 2 = 48 dimensions) and returns the concatenation,
X part first; with `K = 4` components the concatenated length is
`2 * (4 + 2 * 4 * 48) = 776`. -/
theorem mbh_concatenated_output
    (cfg : Config) (ext : Sklearn) (tracks : List TrackRecord)
    (hK : cfg.K = 4) (htr : tracks ≠ [])
    (hxD : ∀ r ∈ tracks, r.mbhx.length = 96)
    (hQx : Kdim (reduceStep ext (tracks.map TrackRecord.mbhx))
        (ext.gmmFit cfg.K (reduceStep ext (tracks.map TrackRecord.mbhx)))
        = cfg.K)
    (hdx : ddim (reduceStep ext (tracks.map TrackRecord.mbhx)) = 48)
    (hQy : Kdim (reduceStep ext (tracks.map TrackRecord.mbhy))
        (ext.gmmFit cfg.K (reduceStep ext (tracks.map TrackRecord.mbhy)))
        = cfg.K)
    (hdy : ddim (reduceStep ext (tracks.map TrackRecord.mbhy)) = 48) :
    mbh_fisher cfg ext tracks
        = .ok (fisher_descriptor_val cfg ext (tracks.map TrackRecord.mbhx)
            ++ fisher_descriptor_val cfg ext (tracks.map TrackRecord.mbhy))
      ∧ reduceStep ext (tracks.map TrackRecord.mbhx)
          = ext.pcaFitTransform 48 (tracks.map TrackRecord.mbhx)
      ∧ (fisher_descriptor_val cfg ext (tracks.map TrackRecord.mbhx)
          ++ fisher_descriptor_val cfg ext (tracks.map TrackRecord.mbhy)).length
          = 776 := by
  obtain ⟨t0, ts, rfl⟩ := List.exists_cons_of_ne_nil htr
  refine ⟨?_, ?_, ?_⟩
  · rw [mbh_fisher,
      fisher_descriptor_ok cfg ext (read_mbh (t0 :: ts)).1 (by
        simp [read_mbh, toMatrix]),
      fisher_descriptor_ok cfg ext (read_mbh (t0 :: ts)).2 (by
        simp [read_mbh, toMatrix])]
    rfl
  · rw [reduceStep]
    have : (((t0 :: ts).map TrackRecord.mbhx).headD []).length = 96 := by
      simp only [List.map_cons, List.headD_cons]
      exact hxD t0 (List.mem_cons_self t0 ts)
    rw [this]
  · rw [List.length_append]
    unfold fisher_descriptor_val
    rw [fisher_vector_length_core, fisher_vector_length_core,
      hQx, hdx, hQy, hdy, hK]

/-- Witness for C7 on a concrete one-record batch with 96-dimensional MBH
blocks and `K = 4`. -/
theorem mbh_concatenated_output_witness :
    mbh_fisher ⟨true, true, true, 4⟩ extW [recW 96]
        = .ok (fisher_descriptor_val ⟨true, true, true, 4⟩ extW
              ([recW 96].map TrackRecord.mbhx)
            ++ fisher_descriptor_val ⟨true, true, true, 4⟩ extW
              ([recW 96].map TrackRecord.mbhy))
      ∧ reduceStep extW ([recW 96].map TrackRecord.mbhx)
          = extW.pcaFitTransform 48 ([recW 96].map TrackRecord.mbhx)
      ∧ (fisher_descriptor_val ⟨true, true, true, 4⟩ extW
            ([recW 96].map TrackRecord.mbhx)
          ++ fisher_descriptor_val ⟨true, true, true, 4⟩ extW
            ([recW 96].map TrackRecord.mbhy)).length = 776 :=
  mbh_concatenated_output ⟨true, true, true, 4⟩ extW [recW 96]
    rfl (by decide)
    (by intro r hr; simp [recW] at hr; simp [hr, recW])
    (by decide) (by decide) (by decide) (by decide)

/-- C8: a 3-D per-trajectory stack is flattened row by row before the
matrix is built (`toMatrix` of the `ndim > 2` case), `fisher_descriptor`
treats it exactly as the 2-D matrix of flattened rows, and on a uniform
block the per-row flattening is lossless and order-preserving: it is
undone by `unflattenRow`, keeps every element (the flat length is
`rows * b`), and places element `(i, j)` at row-major position
`i * b + j`. -/
theorem multidim_flattening_lossless
    (t : List (List (List ℚ))) (b : ℕ) (hb : 0 < b) :
    toMatrix (DescriptorArray.threeD t) = t.map List.flatten
      ∧ (∀ cfg ext, fisher_descriptor cfg ext (DescriptorArray.threeD t)
          = fisher_descriptor cfg ext
              (DescriptorArray.twoD (t.map List.flatten)))
      ∧ ∀ blk ∈ t, (∀ r ∈ blk, r.length = b) →
          unflattenRow b blk.flatten = blk
          ∧ blk.flatten.length = blk.length * b
          ∧ ∀ i j, j < b →
              blk.flatten.getD (i * b + j) 0 = (blk.getD i []).getD j 0 := by
  refine ⟨rfl, fun cfg ext => rfl, fun blk _ hrow => ⟨?_, ?_, ?_⟩⟩
  · exact unflattenRow_flatten blk b hb hrow
  · exact flatten_length_uniform blk b hrow
  · intro i j hj
    exact flatten_getD_uniform 0 blk b i j hrow hj

/-- Witness for C8 on a concrete 3-D stack of one 2x2 block. -/
theorem multidim_flattening_lossless_witness :
    toMatrix (DescriptorArray.threeD [[[(1 : ℚ), 2], [3, 4]]])
        = [[[(1 : ℚ), 2], [3, 4]]].map List.flatten
      ∧ (∀ cfg ext,
          fisher_descriptor cfg ext
              (DescriptorArray.threeD [[[(1 : ℚ), 2], [3, 4]]])
            = fisher_descriptor cfg ext
              (DescriptorArray.twoD
                ([[[(1 : ℚ), 2], [3, 4]]].map List.flatten)))
      ∧ ∀ blk ∈ [[[(1 : ℚ), 2], [3, 4]]], (∀ r ∈ blk, r.length = 2) →
          unflattenRow 2 blk.flatten = blk
          ∧ blk.flatten.length = blk.length * 2
          ∧ ∀ i j, j < 2 →
              blk.flatten.getD (i * 2 + j) 0 = (blk.getD i []).getD j 0 :=
  multidim_flattening_lossless [[[(1 : ℚ), 2], [3, 4]]] 2 (by decide)

/-- C10: a matrix with an odd column count `D` is not rejected: the
reduction silently requests rank `int(D/2) = (D-1)/2` from the PCA and the
pipeline returns a Fisher vector of length `K + 2 * K * ((D-1)/2)`. -/
theorem odd_dimension_not_rejected
    (cfg : Config) (ext : Sklearn) (m : List (List ℚ)) (D : ℕ)
    (hne : m ≠ [])
    (h0 : (m.headD []).length = D)
    (hodd : D % 2 = 1)
    (hQ : Kdim (reduceStep ext m) (ext.gmmFit cfg.K (reduceStep ext m))
        = cfg.K)
    (hd : ddim (reduceStep ext m) = (D - 1) / 2) :
    fisher_descriptor cfg ext (.twoD m)
        = .ok (fisher_descriptor_val cfg ext m)
      ∧ reduceStep ext m = ext.pcaFitTransform ((D - 1) / 2) m
      ∧ (fisher_descriptor_val cfg ext m).length
          = cfg.K + 2 * (cfg.K * ((D - 1) / 2)) := by
  have hhalf : D / 2 = (D - 1) / 2 := by omega
  refine ⟨fisher_descriptor_ok cfg ext (.twoD m) hne, ?_, ?_⟩
  · rw [reduceStep, h0, hhalf]
  · unfold fisher_descriptor_val
    rw [fisher_vector_length_core, hQ, hd]

/-- Witness for C10 on a concrete two-row matrix with `D = 5` columns:
the pipeline succeeds and the output has length `K + 2 * K * 2`. -/
theorem odd_dimension_not_rejected_witness :
    fisher_descriptor ⟨true, true, true, 3⟩ extW
          (.twoD [[1, 2, 3, 4, 5], [6, 7, 8, 9, 10]])
        = .ok (fisher_descriptor_val ⟨true, true, true, 3⟩ extW
            [[1, 2, 3, 4, 5], [6, 7, 8, 9, 10]])
      ∧ reduceStep extW [[1, 2, 3, 4, 5], [6, 7, 8, 9, 10]]
          = extW.pcaFitTransform ((5 - 1) / 2)
              [[1, 2, 3, 4, 5], [6, 7, 8, 9, 10]]
      ∧ (fisher_descriptor_val ⟨true, true, true, 3⟩ extW
            [[1, 2, 3, 4, 5], [6, 7, 8, 9, 10]]).length
          = 3 + 2 * (3 * ((5 - 1) / 2)) :=
  odd_dimension_not_rejected ⟨true, true, true, 3⟩ extW
    [[1, 2, 3, 4, 5], [6, 7, 8, 9, 10]] 5
    (by decide) (by decide) (by decide) (by decide) (by decide)

lemma add_row_of_empty (df : DataFrame) (n : String) (fv : List ℚ)
    (h1 : df.rows = []) (h2 : df.columns = []) :
    add_row_to_table df n fv
      = ⟨"name" :: (List.range fv.length).map (fun i => toString i),
         [(n, (List.range fv.length).map (fun i => fv[i]?))]⟩ := by
  unfold add_row_to_table DataFrame.isEmpty
  rw [h1, h2]
  simp

lemma add_row_of_nonempty (df : DataFrame) (n : String) (fv : List ℚ)
    (h1 : df.rows ≠ []) (h2 : df.columns ≠ []) :
    add_row_to_table df n fv
      = ⟨df.columns,
         df.rows ++ [(n, (List.range (df.columns.length - 1)).map
            (fun i => fv[i]?))]⟩ := by
  unfold add_row_to_table DataFrame.isEmpty
  have he : (df.rows.isEmpty || df.columns.isEmpty) = false := by
    cases hr : df.rows with
    | nil => exact absurd hr h1
    | cons a t =>
      cases hc : df.columns with
      | nil => exact absurd hc h2
      | cons b s => rfl
  rw [he]
  simp

/-- On a non-empty record batch with some channel enabled, `processVideo`
succeeds and appends one row per enabled channel, the MBH row being the
X-then-Y concatenation. -/
lemma processVideo_ok (cfg : Config) (ext : Sklearn)
    (tracksOf : String → List TrackRecord)
    (dfs : DataFrame × DataFrame × DataFrame × List String) (f : String)
    (hne : tracksOf f ≠ [])
    (hflag : (cfg.HOG_FISHER_VECTOR || cfg.HOF_FISHER_VECTOR
        || cfg.MBH_FISHER_VECTOR) = true) :
    processVideo cfg ext tracksOf dfs f = .ok
      ((if cfg.HOG_FISHER_VECTOR then
          add_row_to_table dfs.1 (splitext_root f)
            (fisher_descriptor_val cfg ext
              ((tracksOf f).map TrackRecord.hog))
        else dfs.1),
       (if cfg.HOF_FISHER_VECTOR then
          add_row_to_table dfs.2.1 (splitext_root f)
            (fisher_descriptor_val cfg ext
              ((tracksOf f).map TrackRecord.hof))
        else dfs.2.1),
       (if cfg.MBH_FISHER_VECTOR then
          add_row_to_table dfs.2.2.1 (splitext_root f)
            (fisher_descriptor_val cfg ext
                ((tracksOf f).map TrackRecord.mbhx)
              ++ fisher_descriptor_val cfg ext
                ((tracksOf f).map TrackRecord.mbhy))
        else dfs.2.2.1),
       dfs.2.2.2) := by
  have hmap : ∀ g : TrackRecord → List ℚ, (tracksOf f).map g ≠ [] := by
    intro g h
    exact hne (List.map_eq_nil.mp h)
  have h1 := fisher_descriptor_ok cfg ext (read_hog (tracksOf f)) (hmap _)
  have h2 := fisher_descriptor_ok cfg ext (read_hof (tracksOf f)) (hmap _)
  have h3 := fisher_descriptor_ok cfg ext (read_mbh (tracksOf f)).1 (hmap _)
  have h4 := fisher_descriptor_ok cfg ext (read_mbh (tracksOf f)).2 (hmap _)
  unfold processVideo mbh_fisher
  rw [hflag]
  cases hHOG : cfg.HOG_FISHER_VECTOR <;>
    cases hHOF : cfg.HOF_FISHER_VECTOR <;>
      cases hMBH : cfg.MBH_FISHER_VECTOR <;>
        simp_all [read_hog, read_hof, read_mbh, toMatrix, Except.bind] <;>
          rfl

/-- Folding the corpus loop over videos with non-empty batches, starting
from a HOG frame that already has rows and columns, succeeds, preserves
the HOG columns, and appends one HOG row name per video in list order. -/
lemma foldlM_hog_invariant (cfg : Config) (ext : Sklearn)
    (tracksOf : String → List TrackRecord) (l : List String)
    (hHOG : cfg.HOG_FISHER_VECTOR = true)
    (htr : ∀ f ∈ l, tracksOf f ≠ []) :
    ∀ dfs : DataFrame × DataFrame × DataFrame × List String,
      dfs.1.rows ≠ [] → dfs.1.columns ≠ [] →
      ∃ res, l.foldlM (processVideo cfg ext tracksOf) dfs = .ok res
        ∧ res.1.columns = dfs.1.columns
        ∧ res.1.rows.map Prod.fst
            = dfs.1.rows.map Prod.fst ++ l.map splitext_root
        ∧ res.1.rows ≠ [] ∧ res.1.columns ≠ [] := by
  induction l with
  | nil =>
    intro dfs h1 h2
    exact ⟨dfs, rfl, rfl, by simp, h1, h2⟩
  | cons f t ih =>
    intro dfs h1 h2
    have hflag : (cfg.HOG_FISHER_VECTOR || cfg.HOF_FISHER_VECTOR
        || cfg.MBH_FISHER_VECTOR) = true := by
      rw [hHOG]; rfl
    have hstep := processVideo_ok cfg ext tracksOf dfs f
      (htr f (List.mem_cons_self f t)) hflag
    rw [hHOG, if_pos rfl] at hstep
    rw [add_row_of_nonempty dfs.1 (splitext_root f) _ h1 h2] at hstep
    obtain ⟨res, hres, hcol, hnames, hr, hc⟩ :=
      ih (fun g hg => htr g (List.mem_cons_of_mem _ hg))
        ((⟨dfs.1.columns,
            dfs.1.rows ++ [(splitext_root f,
              (List.range (dfs.1.columns.length - 1)).map
                (fun i => (fisher_descriptor_val cfg ext
                  ((tracksOf f).map TrackRecord.hog))[i]?))]⟩ : DataFrame),
         (if cfg.HOF_FISHER_VECTOR then
            add_row_to_table dfs.2.1 (splitext_root f)
              (fisher_descriptor_val cfg ext
                ((tracksOf f).map TrackRecord.hof))
          else dfs.2.1),
         (if cfg.MBH_FISHER_VECTOR then
            add_row_to_table dfs.2.2.1 (splitext_root f)
              (fisher_descriptor_val cfg ext
                  ((tracksOf f).map TrackRecord.mbhx)
                ++ fisher_descriptor_val cfg ext
                  ((tracksOf f).map TrackRecord.mbhy))
          else dfs.2.2.1),
         dfs.2.2.2)
        (by simp) (by exact h2)
    refine ⟨res, ?_, ?_, ?_, hr, hc⟩
    · rw [List.foldlM_cons, hstep]
      exact hres
    · rw [hcol]
    · rw [hnames]
      simp

lemma filter_if_save_ne (flag : Bool) (df : DataFrame) (p q : String)
    (h : (p == q) = false) :
    ((if flag then (save_as_csv df p).toList else []).filter
      (fun pr => pr.1 == q)) = [] := by
  cases flag
  · simp
  · unfold save_as_csv
    by_cases hd : df.isEmpty = true
    · simp [hd]
    · simp [hd, h]

/-- Master lemma for a fully successful corpus run with the HOG channel
enabled: exactly one HOG CSV is written, once, after the loop; its rows
are the videos in alphanumeric order, one per video, and its columns are
`name` followed by the stringified indices of the first appended Fisher
vector. -/
lemma main_success_hog (cfg : Config) (ext : Sklearn) (files : List String)
    (tracksOf : String → List TrackRecord)
    (hHOG : cfg.HOG_FISHER_VECTOR = true)
    (hne : files ≠ [])
    (htr : ∀ f ∈ files, tracksOf f ≠ []) :
    ∃ hdf : DataFrame,
      (main cfg ext files tracksOf).error = none
      ∧ (main cfg ext files tracksOf).savedCsv.filter
          (fun pr => pr.1 == "features/hog_features.csv")
          = [("features/hog_features.csv", hdf)]
      ∧ ("features/hog_features.csv", hdf)
          ∈ (main cfg ext files tracksOf).savedCsv
      ∧ hdf.rows.map Prod.fst = (sorted_alphanumeric files).map splitext_root
      ∧ hdf.rows.length = files.length
      ∧ hdf.columns = "name" :: (List.range
          (fisher_descriptor_val cfg ext
            ((tracksOf ((sorted_alphanumeric files).headD "")).map
              TrackRecord.hog)).length).map (fun i => toString i) := by
  have hperm := sorted_alphanumeric_perm files
  have hlne : sorted_alphanumeric files ≠ [] := by
    intro h
    rw [h] at hperm
    exact hne hperm.symm.eq_nil
  obtain ⟨f0, rest, hl⟩ := List.exists_cons_of_ne_nil hlne
  have htr' : ∀ f ∈ sorted_alphanumeric files, tracksOf f ≠ [] :=
    fun f hf => htr f ((mem_sorted_alphanumeric f files).mp hf)
  have hflag : (cfg.HOG_FISHER_VECTOR || cfg.HOF_FISHER_VECTOR
      || cfg.MBH_FISHER_VECTOR) = true := by
    rw [hHOG]; rfl
  have hstep := processVideo_ok cfg ext tracksOf
    (emptyFrame, emptyFrame, emptyFrame, []) f0
    (htr' f0 (by rw [hl]; exact List.mem_cons_self f0 rest)) hflag
  rw [hHOG, if_pos rfl] at hstep
  rw [show (emptyFrame, emptyFrame, emptyFrame,
      ([] : List String)).1 = emptyFrame from rfl] at hstep
  rw [add_row_of_empty emptyFrame _ _ rfl rfl] at hstep
  obtain ⟨res, hres, hcol, hnames, hr, hc⟩ :=
    foldlM_hog_invariant cfg ext tracksOf rest hHOG
      (fun g hg => htr' g (by rw [hl]; exact List.mem_cons_of_mem _ hg))
      ((⟨"name" :: (List.range
            (fisher_descriptor_val cfg ext
              ((tracksOf f0).map TrackRecord.hog)).length).map
            (fun i => toString i),
          [(splitext_root f0, (List.range
            (fisher_descriptor_val cfg ext
              ((tracksOf f0).map TrackRecord.hog)).length).map
            (fun i => (fisher_descriptor_val cfg ext
              ((tracksOf f0).map TrackRecord.hog))[i]?))]⟩ : DataFrame),
       (if cfg.HOF_FISHER_VECTOR then
          add_row_to_table (emptyFrame, emptyFrame, emptyFrame,
              ([] : List String)).2.1 (splitext_root f0)
            (fisher_descriptor_val cfg ext
              ((tracksOf f0).map TrackRecord.hof))
        else (emptyFrame, emptyFrame, emptyFrame, ([] : List String)).2.1),
       (if cfg.MBH_FISHER_VECTOR then
          add_row_to_table (emptyFrame, emptyFrame, emptyFrame,
              ([] : List String)).2.2.1 (splitext_root f0)
            (fisher_descriptor_val cfg ext
                ((tracksOf f0).map TrackRecord.mbhx)
              ++ fisher_descriptor_val cfg ext
                ((tracksOf f0).map TrackRecord.mbhy))
        else (emptyFrame, emptyFrame, emptyFrame, ([] : List String)).2.2.1),
       (emptyFrame, emptyFrame, emptyFrame, ([] : List String)).2.2.2)
      (by simp) (by simp)
  have hfold : (sorted_alphanumeric files).foldlM
      (processVideo cfg ext tracksOf)
      (emptyFrame, emptyFrame, emptyFrame, []) = .ok res := by
    rw [hl, List.foldlM_cons, hstep]
    exact hres
  have hE : files.isEmpty = false := by
    cases files with
    | nil => exact absurd rfl hne
    | cons a t => rfl
  have hmain : main cfg ext files tracksOf
      = ⟨false,
          (if cfg.HOG_FISHER_VECTOR then
              (save_as_csv res.1 "features/hog_features.csv").toList else [])
          ++ (if cfg.HOF_FISHER_VECTOR then
              (save_as_csv res.2.1 "features/hof_features.csv").toList else [])
          ++ (if cfg.MBH_FISHER_VECTOR then
              (save_as_csv res.2.2.1 "features/mbh_features.csv").toList
            else []),
          res.2.2.2, none⟩ := by
    unfold main
    rw [hE]
    simp only [Bool.false_eq_true, if_false, hfold]
  have hsave : save_as_csv res.1 "features/hog_features.csv"
      = some ("features/hog_features.csv", res.1) := by
    unfold save_as_csv DataFrame.isEmpty
    obtain ⟨a, t, h1⟩ := List.exists_cons_of_ne_nil hr
    obtain ⟨b, s, h2⟩ := List.exists_cons_of_ne_nil hc
    rw [h1, h2]
    rfl
  have hcolD : res.1.columns = "name" :: (List.range
      (fisher_descriptor_val cfg ext
        ((tracksOf f0).map TrackRecord.hog)).length).map
      (fun i => toString i) := hcol
  have hnamesD : res.1.rows.map Prod.fst
      = (sorted_alphanumeric files).map splitext_root := by
    rw [hnames, hl]
    simp
  refine ⟨res.1, ?_, ?_, ?_, hnamesD, ?_, ?_⟩
  · rw [hmain]
  · rw [hmain]
    simp only [List.filter_append]
    rw [filter_if_save_ne cfg.HOF_FISHER_VECTOR res.2.1
        "features/hof_features.csv" "features/hog_features.csv" (by rfl),
      filter_if_save_ne cfg.MBH_FISHER_VECTOR res.2.2.1
        "features/mbh_features.csv" "features/hog_features.csv" (by rfl)]
    rw [hHOG, if_pos rfl, hsave]
    rfl
  · rw [hmain]
    rw [hHOG, if_pos rfl, hsave]
    simp
  · have := congrArg List.length hnamesD
    simpa [hperm.length_eq] using this
  · rw [hcolD, hl]
    rfl

/-- C4: the corpus loop iterates videos in alphanumeric order with
numeric substrings compared numerically, the HOG Feature Table's row
names follow exactly that order, the sorted list is a permutation of the
input listing, and on the spec's scenario D the `clip2` row precedes the
`clip10` row whichever way the two files were enumerated. -/
theorem corpus_natural_order
    (cfg : Config) (ext : Sklearn) (files : List String)
    (tracksOf : String → List TrackRecord)
    (hHOG : cfg.HOG_FISHER_VECTOR = true)
    (hne : files ≠ [])
    (htr : ∀ f ∈ files, tracksOf f ≠ []) :
    (∃ hdf : DataFrame,
        ("features/hog_features.csv", hdf)
          ∈ (main cfg ext files tracksOf).savedCsv
        ∧ hdf.rows.map Prod.fst
            = (sorted_alphanumeric files).map splitext_root)
    ∧ (sorted_alphanumeric files).Perm files
    ∧ sorted_alphanumeric ["clip10.avi", "clip2.avi"]
        = ["clip2.avi", "clip10.avi"]
    ∧ sorted_alphanumeric ["clip2.avi", "clip10.avi"]
        = ["clip2.avi", "clip10.avi"] := by
  obtain ⟨hdf, _, _, hmem, hnames, _, _⟩ :=
    main_success_hog cfg ext files tracksOf hHOG hne htr
  exact ⟨⟨hdf, hmem, hnames⟩, sorted_alphanumeric_perm files,
    by decide, by decide⟩

/-- Witness for C4 on the scenario-D corpus enumerated in reverse
natural order. -/
theorem corpus_natural_order_witness :
    (∃ hdf : DataFrame,
        ("features/hog_features.csv", hdf)
          ∈ (main defaultConfig extW ["clip10.avi", "clip2.avi"]
              (fun _ => [recW 4])).savedCsv
        ∧ hdf.rows.map Prod.fst
            = (sorted_alphanumeric ["clip10.avi", "clip2.avi"]).map
                splitext_root)
    ∧ (sorted_alphanumeric ["clip10.avi", "clip2.avi"]).Perm
        ["clip10.avi", "clip2.avi"]
    ∧ sorted_alphanumeric ["clip10.avi", "clip2.avi"]
        = ["clip2.avi", "clip10.avi"]
    ∧ sorted_alphanumeric ["clip2.avi", "clip10.avi"]
        = ["clip2.avi", "clip10.avi"] :=
  corpus_natural_order defaultConfig extW ["clip10.avi", "clip2.avi"]
    (fun _ => [recW 4]) rfl (by decide)
    (fun f _ => List.cons_ne_nil _ _)

/-- The corpus fold succeeds whenever every video's batch is non-empty
and some channel is enabled. -/
lemma foldlM_ok_of_tracks (cfg : Config) (ext : Sklearn)
    (tracksOf : String → List TrackRecord) (l : List String)
    (hflag : (cfg.HOG_FISHER_VECTOR || cfg.HOF_FISHER_VECTOR
        || cfg.MBH_FISHER_VECTOR) = true)
    (htr : ∀ f ∈ l, tracksOf f ≠ []) :
    ∀ dfs, ∃ res,
      l.foldlM (processVideo cfg ext tracksOf) dfs = .ok res := by
  induction l with
  | nil => intro dfs; exact ⟨dfs, rfl⟩
  | cons f t ih =>
    intro dfs
    have hok := processVideo_ok cfg ext tracksOf dfs f
      (htr f (List.mem_cons_self f t)) hflag
    obtain ⟨T, hT⟩ : ∃ T,
        processVideo cfg ext tracksOf dfs f = .ok T := ⟨_, hok⟩
    obtain ⟨res, hres⟩ := ih (fun g hg => htr g (List.mem_cons_of_mem _ hg)) T
    exact ⟨res, by rw [List.foldlM_cons, hT]; exact hres⟩

/-- A successful corpus fold determines the whole `main` outcome: saves
happen once, after the loop, per enabled channel, and only for non-empty
frames. -/
lemma main_eq_of_fold (cfg : Config) (ext : Sklearn) (files : List String)
    (tracksOf : String → List TrackRecord)
    (res : DataFrame × DataFrame × DataFrame × List String)
    (hne : files ≠ [])
    (hfold : (sorted_alphanumeric files).foldlM
        (processVideo cfg ext tracksOf)
        (emptyFrame, emptyFrame, emptyFrame, []) = .ok res) :
    main cfg ext files tracksOf
      = ⟨false,
          (if cfg.HOG_FISHER_VECTOR then
              (save_as_csv res.1 "features/hog_features.csv").toList else [])
          ++ (if cfg.HOF_FISHER_VECTOR then
              (save_as_csv res.2.1 "features/hof_features.csv").toList else [])
          ++ (if cfg.MBH_FISHER_VECTOR then
              (save_as_csv res.2.2.1 "features/mbh_features.csv").toList
            else []),
          res.2.2.2, none⟩ := by
  have hE : files.isEmpty = false := by
    cases files with
    | nil => exact absurd rfl hne
    | cons a t => rfl
  unfold main
  rw [hE]
  simp only [Bool.false_eq_true, if_false, hfold]

lemma save_as_csv_of_nonempty (df : DataFrame) (p : String)
    (h1 : df.rows ≠ []) (h2 : df.columns ≠ []) :
    save_as_csv df p = some (p, df) := by
  unfold save_as_csv DataFrame.isEmpty
  obtain ⟨a, t, e1⟩ := List.exists_cons_of_ne_nil h1
  obtain ⟨b, s, e2⟩ := List.exists_cons_of_ne_nil h2
  rw [e1, e2]
  rfl

/-- Corpus-fold invariant for one channel's frame, selected out of the
fold state by `proj`: when every batch is non-empty and the channel's
step appends the row computed by `val`, the fold succeeds, preserves the
channel's columns, and appends one row name per video in list order. -/
lemma foldlM_channel_invariant (cfg : Config) (ext : Sklearn)
    (tracksOf : String → List TrackRecord)
    (proj : DataFrame × DataFrame × DataFrame × List String → DataFrame)
    (val : String → List ℚ) (l : List String)
    (hflag : (cfg.HOG_FISHER_VECTOR || cfg.HOF_FISHER_VECTOR
        || cfg.MBH_FISHER_VECTOR) = true)
    (htr : ∀ f ∈ l, tracksOf f ≠ [])
    (hproj : ∀ dfs f, tracksOf f ≠ [] → ∀ r,
        processVideo cfg ext tracksOf dfs f = .ok r →
        proj r = add_row_to_table (proj dfs) (splitext_root f) (val f)) :
    ∀ dfs, (proj dfs).rows ≠ [] → (proj dfs).columns ≠ [] →
      ∃ res, l.foldlM (processVideo cfg ext tracksOf) dfs = .ok res
        ∧ (proj res).columns = (proj dfs).columns
        ∧ (proj res).rows.map Prod.fst
            = (proj dfs).rows.map Prod.fst ++ l.map splitext_root
        ∧ (proj res).rows ≠ [] ∧ (proj res).columns ≠ [] := by
  induction l with
  | nil =>
    intro dfs h1 h2
    exact ⟨dfs, rfl, rfl, by simp, h1, h2⟩
  | cons f t ih =>
    intro dfs h1 h2
    have hfne := htr f (List.mem_cons_self f t)
    have hok := processVideo_ok cfg ext tracksOf dfs f hfne hflag
    obtain ⟨T, hT⟩ : ∃ T,
        processVideo cfg ext tracksOf dfs f = .ok T := ⟨_, hok⟩
    have hpT := hproj dfs f hfne T hT
    rw [add_row_of_nonempty _ _ _ h1 h2] at hpT
    obtain ⟨res, hres, hcol, hnames, hr, hc⟩ :=
      ih (fun g hg => htr g (List.mem_cons_of_mem _ hg)) T
        (by rw [hpT]; simp)
        (by rw [hpT]; exact h2)
    refine ⟨res, ?_, ?_, ?_, hr, hc⟩
    · rw [List.foldlM_cons, hT]
      exact hres
    · rw [hcol, hpT]
    · rw [hnames, hpT]
      simp

/-- Facts about one channel's frame after a successful full corpus fold
from the empty state: columns come from the first processed video's
vector, row names are the sorted corpus, one row per video, both axes
non-empty. -/
lemma fold_channel_facts (cfg : Config) (ext : Sklearn)
    (files : List String) (tracksOf : String → List TrackRecord)
    (proj : DataFrame × DataFrame × DataFrame × List String → DataFrame)
    (val : String → List ℚ)
    (res : DataFrame × DataFrame × DataFrame × List String)
    (hne : files ≠ [])
    (htr : ∀ f ∈ files, tracksOf f ≠ [])
    (hflag : (cfg.HOG_FISHER_VECTOR || cfg.HOF_FISHER_VECTOR
        || cfg.MBH_FISHER_VECTOR) = true)
    (hinit : proj (emptyFrame, emptyFrame, emptyFrame, []) = emptyFrame)
    (hproj : ∀ dfs f, tracksOf f ≠ [] → ∀ r,
        processVideo cfg ext tracksOf dfs f = .ok r →
        proj r = add_row_to_table (proj dfs) (splitext_root f) (val f))
    (hfold : (sorted_alphanumeric files).foldlM
        (processVideo cfg ext tracksOf)
        (emptyFrame, emptyFrame, emptyFrame, []) = .ok res) :
    (proj res).columns = "name" :: (List.range
        (val ((sorted_alphanumeric files).headD "")).length).map
        (fun i => toString i)
      ∧ (proj res).rows.map Prod.fst
          = (sorted_alphanumeric files).map splitext_root
      ∧ (proj res).rows.length = files.length
      ∧ (proj res).rows ≠ [] ∧ (proj res).columns ≠ [] := by
  have hperm := sorted_alphanumeric_perm files
  have hlne : sorted_alphanumeric files ≠ [] := by
    intro h
    rw [h] at hperm
    exact hne hperm.symm.eq_nil
  obtain ⟨f0, rest, hl⟩ := List.exists_cons_of_ne_nil hlne
  have htr' : ∀ f ∈ sorted_alphanumeric files, tracksOf f ≠ [] :=
    fun f hf => htr f ((mem_sorted_alphanumeric f files).mp hf)
  have hf0 : tracksOf f0 ≠ [] :=
    htr' f0 (by rw [hl]; exact List.mem_cons_self f0 rest)
  rw [hl, List.foldlM_cons] at hfold
  have hok := processVideo_ok cfg ext tracksOf
    (emptyFrame, emptyFrame, emptyFrame, []) f0 hf0 hflag
  obtain ⟨T, hT⟩ : ∃ T, processVideo cfg ext tracksOf
      (emptyFrame, emptyFrame, emptyFrame, []) f0 = .ok T := ⟨_, hok⟩
  rw [hT] at hfold
  have hfold' : rest.foldlM (processVideo cfg ext tracksOf) T
      = .ok res := hfold
  have hpT := hproj _ f0 hf0 T hT
  rw [hinit, add_row_of_empty emptyFrame _ _ rfl rfl] at hpT
  obtain ⟨res', hres', hcol, hnames, hr, hc⟩ :=
    foldlM_channel_invariant cfg ext tracksOf proj val rest hflag
      (fun g hg => htr' g (by rw [hl]; exact List.mem_cons_of_mem _ hg))
      hproj T
      (by rw [hpT]; simp) (by rw [hpT]; simp)
  have hrr : res' = res := by
    rw [hres'] at hfold'
    exact Except.ok.inj hfold'
  subst hrr
  have h2 : (proj res').rows.map Prod.fst
      = (sorted_alphanumeric files).map splitext_root := by
    rw [hnames, hpT, hl]
    simp
  refine ⟨?_, h2, ?_, hr, hc⟩
  · rw [hcol, hpT, hl]
    rfl
  · have hlenmap := congrArg List.length h2
    simpa [hperm.length_eq] using hlenmap

lemma proj_step_hog (cfg : Config) (ext : Sklearn)
    (tracksOf : String → List TrackRecord)
    (hHOG : cfg.HOG_FISHER_VECTOR = true)
    (hflag : (cfg.HOG_FISHER_VECTOR || cfg.HOF_FISHER_VECTOR
        || cfg.MBH_FISHER_VECTOR) = true) :
    ∀ dfs f, tracksOf f ≠ [] → ∀ r,
      processVideo cfg ext tracksOf dfs f = .ok r →
      r.1 = add_row_to_table dfs.1 (splitext_root f)
        (fisher_descriptor_val cfg ext
          ((tracksOf f).map TrackRecord.hog)) := by
  intro dfs f hfne r hr
  rw [processVideo_ok cfg ext tracksOf dfs f hfne hflag] at hr
  cases Except.ok.inj hr
  rw [hHOG, if_pos rfl]

lemma proj_step_hof (cfg : Config) (ext : Sklearn)
    (tracksOf : String → List TrackRecord)
    (hHOF : cfg.HOF_FISHER_VECTOR = true)
    (hflag : (cfg.HOG_FISHER_VECTOR || cfg.HOF_FISHER_VECTOR
        || cfg.MBH_FISHER_VECTOR) = true) :
    ∀ dfs f, tracksOf f ≠ [] → ∀ r,
      processVideo cfg ext tracksOf dfs f = .ok r →
      r.2.1 = add_row_to_table dfs.2.1 (splitext_root f)
        (fisher_descriptor_val cfg ext
          ((tracksOf f).map TrackRecord.hof)) := by
  intro dfs f hfne r hr
  rw [processVideo_ok cfg ext tracksOf dfs f hfne hflag] at hr
  cases Except.ok.inj hr
  rw [show (cfg.HOF_FISHER_VECTOR = true) from hHOF, if_pos rfl]

lemma proj_step_mbh (cfg : Config) (ext : Sklearn)
    (tracksOf : String → List TrackRecord)
    (hMBH : cfg.MBH_FISHER_VECTOR = true)
    (hflag : (cfg.HOG_FISHER_VECTOR || cfg.HOF_FISHER_VECTOR
        || cfg.MBH_FISHER_VECTOR) = true) :
    ∀ dfs f, tracksOf f ≠ [] → ∀ r,
      processVideo cfg ext tracksOf dfs f = .ok r →
      r.2.2.1 = add_row_to_table dfs.2.2.1 (splitext_root f)
        (fisher_descriptor_val cfg ext
            ((tracksOf f).map TrackRecord.mbhx)
          ++ fisher_descriptor_val cfg ext
            ((tracksOf f).map TrackRecord.mbhy)) := by
  intro dfs f hfne r hr
  rw [processVideo_ok cfg ext tracksOf dfs f hfne hflag] at hr
  cases Except.ok.inj hr
  rw [show (cfg.MBH_FISHER_VECTOR = true) from hMBH, if_pos rfl]

/-- C9: a CSV is skipped exactly for an empty frame; on a successful run
the loop ends without error and, for every enabled channel (HOG, HOF and
MBH alike), exactly one CSV entry for that channel's fixed path is
produced, once, after the full loop; its frame has one row per processed
video, in corpus order, and its columns are `name` followed by `0..L-1`
where `L` is the length of that channel's first appended Fisher vector
(for MBH, the X-then-Y concatenation). -/
theorem feature_table_format
    (cfg : Config) (ext : Sklearn) (files : List String)
    (tracksOf : String → List TrackRecord)
    (hflag : (cfg.HOG_FISHER_VECTOR || cfg.HOF_FISHER_VECTOR
        || cfg.MBH_FISHER_VECTOR) = true)
    (hne : files ≠ [])
    (htr : ∀ f ∈ files, tracksOf f ≠ []) :
    (∀ df p, save_as_csv df p = none ↔ df.isEmpty = true)
    ∧ (main cfg ext files tracksOf).error = none
    ∧ (cfg.HOG_FISHER_VECTOR = true → ∃ hdf : DataFrame,
        (main cfg ext files tracksOf).savedCsv.filter
            (fun pr => pr.1 == "features/hog_features.csv")
          = [("features/hog_features.csv", hdf)]
        ∧ hdf.rows.length = files.length
        ∧ hdf.rows.map Prod.fst
            = (sorted_alphanumeric files).map splitext_root
        ∧ hdf.columns = "name" :: (List.range
            (fisher_descriptor_val cfg ext
              ((tracksOf ((sorted_alphanumeric files).headD "")).map
                TrackRecord.hog)).length).map (fun i => toString i))
    ∧ (cfg.HOF_FISHER_VECTOR = true → ∃ hdf : DataFrame,
        (main cfg ext files tracksOf).savedCsv.filter
            (fun pr => pr.1 == "features/hof_features.csv")
          = [("features/hof_features.csv", hdf)]
        ∧ hdf.rows.length = files.length
        ∧ hdf.rows.map Prod.fst
            = (sorted_alphanumeric files).map splitext_root
        ∧ hdf.columns = "name" :: (List.range
            (fisher_descriptor_val cfg ext
              ((tracksOf ((sorted_alphanumeric files).headD "")).map
                TrackRecord.hof)).length).map (fun i => toString i))
    ∧ (cfg.MBH_FISHER_VECTOR = true → ∃ hdf : DataFrame,
        (main cfg ext files tracksOf).savedCsv.filter
            (fun pr => pr.1 == "features/mbh_features.csv")
          = [("features/mbh_features.csv", hdf)]
        ∧ hdf.rows.length = files.length
        ∧ hdf.rows.map Prod.fst
            = (sorted_alphanumeric files).map splitext_root
        ∧ hdf.columns = "name" :: (List.range
            (fisher_descriptor_val cfg ext
                ((tracksOf ((sorted_alphanumeric files).headD "")).map
                  TrackRecord.mbhx)
              ++ fisher_descriptor_val cfg ext
                ((tracksOf ((sorted_alphanumeric files).headD "")).map
                  TrackRecord.mbhy)).length).map (fun i => toString i)) := by
  obtain ⟨res, hfold⟩ := foldlM_ok_of_tracks cfg ext tracksOf
    (sorted_alphanumeric files) hflag
    (fun f hf => htr f ((mem_sorted_alphanumeric f files).mp hf))
    (emptyFrame, emptyFrame, emptyFrame, [])
  have hmain := main_eq_of_fold cfg ext files tracksOf res hne hfold
  refine ⟨?_, by rw [hmain], ?_, ?_, ?_⟩
  · intro df p
    unfold save_as_csv
    by_cases hd : df.isEmpty = true
    · simp [hd]
    · simp [hd]
  · intro hHOG
    obtain ⟨hcols, hnames, hlen, hr, hc⟩ :=
      fold_channel_facts cfg ext files tracksOf (fun dfs => dfs.1)
        (fun f => fisher_descriptor_val cfg ext
          ((tracksOf f).map TrackRecord.hog)) res hne htr hflag rfl
        (proj_step_hog cfg ext tracksOf hHOG hflag) hfold
    refine ⟨res.1, ?_, hlen, hnames, hcols⟩
    rw [hmain]
    simp only [List.filter_append]
    rw [filter_if_save_ne cfg.HOF_FISHER_VECTOR res.2.1
        "features/hof_features.csv" "features/hog_features.csv" (by rfl),
      filter_if_save_ne cfg.MBH_FISHER_VECTOR res.2.2.1
        "features/mbh_features.csv" "features/hog_features.csv" (by rfl),
      hHOG, if_pos rfl, save_as_csv_of_nonempty res.1 _ hr hc]
    rfl
  · intro hHOF
    obtain ⟨hcols, hnames, hlen, hr, hc⟩ :=
      fold_channel_facts cfg ext files tracksOf (fun dfs => dfs.2.1)
        (fun f => fisher_descriptor_val cfg ext
          ((tracksOf f).map TrackRecord.hof)) res hne htr hflag rfl
        (proj_step_hof cfg ext tracksOf hHOF hflag) hfold
    refine ⟨res.2.1, ?_, hlen, hnames, hcols⟩
    rw [hmain]
    simp only [List.filter_append]
    rw [filter_if_save_ne cfg.HOG_FISHER_VECTOR res.1
        "features/hog_features.csv" "features/hof_features.csv" (by rfl),
      filter_if_save_ne cfg.MBH_FISHER_VECTOR res.2.2.1
        "features/mbh_features.csv" "features/hof_features.csv" (by rfl),
      hHOF, if_pos rfl, save_as_csv_of_nonempty res.2.1 _ hr hc]
    rfl
  · intro hMBH
    obtain ⟨hcols, hnames, hlen, hr, hc⟩ :=
      fold_channel_facts cfg ext files tracksOf (fun dfs => dfs.2.2.1)
        (fun f => fisher_descriptor_val cfg ext
            ((tracksOf f).map TrackRecord.mbhx)
          ++ fisher_descriptor_val cfg ext
            ((tracksOf f).map TrackRecord.mbhy)) res hne htr hflag rfl
        (proj_step_mbh cfg ext tracksOf hMBH hflag) hfold
    refine ⟨res.2.2.1, ?_, hlen, hnames, hcols⟩
    rw [hmain]
    simp only [List.filter_append]
    rw [filter_if_save_ne cfg.HOG_FISHER_VECTOR res.1
        "features/hog_features.csv" "features/mbh_features.csv" (by rfl),
      filter_if_save_ne cfg.HOF_FISHER_VECTOR res.2.1
        "features/hof_features.csv" "features/mbh_features.csv" (by rfl),
      hMBH, if_pos rfl, save_as_csv_of_nonempty res.2.2.1 _ hr hc]
    rfl

/-- Witness for C9 on a concrete two-video corpus with all three
channels enabled. -/
theorem feature_table_format_witness :
    (∀ df p, save_as_csv df p = none ↔ df.isEmpty = true)
    ∧ (main defaultConfig extW ["b.avi", "a.avi"]
        (fun _ => [recW 4])).error = none
    ∧ (defaultConfig.HOG_FISHER_VECTOR = true → ∃ hdf : DataFrame,
        (main defaultConfig extW ["b.avi", "a.avi"]
            (fun _ => [recW 4])).savedCsv.filter
            (fun pr => pr.1 == "features/hog_features.csv")
          = [("features/hog_features.csv", hdf)]
        ∧ hdf.rows.length = (["b.avi", "a.avi"] : List String).length
        ∧ hdf.rows.map Prod.fst
            = (sorted_alphanumeric ["b.avi", "a.avi"]).map splitext_root
        ∧ hdf.columns = "name" :: (List.range
            (fisher_descriptor_val defaultConfig extW
              (((fun _ => [recW 4]) ((sorted_alphanumeric
                  ["b.avi", "a.avi"]).headD "")).map
                TrackRecord.hog)).length).map (fun i => toString i))
    ∧ (defaultConfig.HOF_FISHER_VECTOR = true → ∃ hdf : DataFrame,
        (main defaultConfig extW ["b.avi", "a.avi"]
            (fun _ => [recW 4])).savedCsv.filter
            (fun pr => pr.1 == "features/hof_features.csv")
          = [("features/hof_features.csv", hdf)]
        ∧ hdf.rows.length = (["b.avi", "a.avi"] : List String).length
        ∧ hdf.rows.map Prod.fst
            = (sorted_alphanumeric ["b.avi", "a.avi"]).map splitext_root
        ∧ hdf.columns = "name" :: (List.range
            (fisher_descriptor_val defaultConfig extW
              (((fun _ => [recW 4]) ((sorted_alphanumeric
                  ["b.avi", "a.avi"]).headD "")).map
                TrackRecord.hof)).length).map (fun i => toString i))
    ∧ (defaultConfig.MBH_FISHER_VECTOR = true → ∃ hdf : DataFrame,
        (main defaultConfig extW ["b.avi", "a.avi"]
            (fun _ => [recW 4])).savedCsv.filter
            (fun pr => pr.1 == "features/mbh_features.csv")
          = [("features/mbh_features.csv", hdf)]
        ∧ hdf.rows.length = (["b.avi", "a.avi"] : List String).length
        ∧ hdf.rows.map Prod.fst
            = (sorted_alphanumeric ["b.avi", "a.avi"]).map splitext_root
        ∧ hdf.columns = "name" :: (List.range
            (fisher_descriptor_val defaultConfig extW
                (((fun _ => [recW 4]) ((sorted_alphanumeric
                    ["b.avi", "a.avi"]).headD "")).map
                  TrackRecord.mbhx)
              ++ fisher_descriptor_val defaultConfig extW
                (((fun _ => [recW 4]) ((sorted_alphanumeric
                    ["b.avi", "a.avi"]).headD "")).map
                  TrackRecord.mbhy)).length).map (fun i => toString i)) :=
  feature_table_format defaultConfig extW ["b.avi", "a.avi"]
    (fun _ => [recW 4]) rfl (by decide)
    (fun f _ => List.cons_ne_nil _ _)

end IDT
